import Mathlib

/-!
Shallow embedding of DCore's BSE post-processing module
(python/dcore_bse.py): disconnected-part subtraction, bare-vertex
assembly, BSE tensor storage, and the local-susceptibility stage.

Numeric arrays are modelled as total functions into the integers:
the code is generic in the numeric entries (complex values are only
copied, added, subtracted and multiplied, and compared to exact
zero), so an exact integral carrier preserves all claims at issue.
Explicit bounds are carried alongside the functions.  Python
dictionaries are modelled as association lists whose lookup prefers
the latest binding, matching dict overwrite semantics.  External
collaborators (the dft_tools index-pair maps and the h5BSE archive)
are modelled abstractly at their documented interfaces.
-/

namespace DCoreBSE

/-- Python dict lookup over an association list: the latest binding wins,
matching dict assignment/overwrite semantics. -/
def dictLookup {α : Type} : List ((ℕ × ℕ) × α) → (ℕ × ℕ) → Option α
  | [], _ => none
  | e :: rest, k =>
    match dictLookup rest k with
    | some v => some v
    | none => if e.1 = k then some e.2 else none

/-- Python membership test `k in d` for the association-list dictionaries. -/
def hasKey {α : Type} (l : List ((ℕ × ℕ) × α)) (k : ℕ × ℕ) : Bool :=
  l.any (fun e => e.1 = k)

theorem dictLookup_append_single {α : Type} (l : List ((ℕ × ℕ) × α))
    (k q : ℕ × ℕ) (v : α) :
    dictLookup (l ++ [(k, v)]) q =
      if k = q then some v else dictLookup l q := by
  induction l with
  | nil => simp [dictLookup]
  | cons e rest ih =>
      simp only [List.cons_append, dictLookup, List.append_eq]
      rw [ih]
      by_cases hkq : k = q
      · simp [hkq]
      · simp [hkq]

theorem dictLookup_isSome_of_hasKey {α : Type} (l : List ((ℕ × ℕ) × α))
    (k : ℕ × ℕ) (h : hasKey l k = true) : ∃ v, dictLookup l k = some v := by
  induction l with
  | nil => simp [hasKey] at h
  | cons e rest ih =>
      simp only [dictLookup]
      cases hr : dictLookup rest k with
      | some v => exact ⟨v, rfl⟩
      | none =>
          simp only [hasKey, List.any_cons, Bool.or_eq_true] at h
          rcases h with he | hrest
          · simp only [decide_eq_true_eq] at he
            exact ⟨e.2, by simp [he]⟩
          · obtain ⟨v, hv⟩ := ih hrest
            rw [hv] at hr
            cases hr

theorem dictLookup_eq_none_of_not_hasKey {α : Type} (l : List ((ℕ × ℕ) × α))
    (k : ℕ × ℕ) (h : hasKey l k = false) : dictLookup l k = none := by
  induction l with
  | nil => rfl
  | cons e rest ih =>
      simp only [hasKey, List.any_cons, Bool.or_eq_false_iff,
        decide_eq_false_iff_not] at h
      simp only [dictLookup, ih (by simpa [hasKey] using h.2)]
      simp [h.1]

/-- A rank-4 tensor over flat flavor indices, as a total function. -/
abbrev T4 : Type := ℕ → ℕ → ℕ → ℕ → ℤ

/-- numpy `transpose` on a rank-4 array with axis tuple `(p0,p1,p2,p3)`:
axis `k` of the result is axis `p_k` of the input, i.e. the input index
on axis `m` is the result index `i_k` for the `k` with `p_k = m`. -/
def transpose4 (p0 p1 p2 p3 : ℕ) (u : T4) : T4 :=
  fun i0 i1 i2 i3 =>
    let idx := fun m =>
      if p0 = m then i0 else if p1 = m then i1 else if p2 = m then i2 else i3
    u (idx 0) (idx 1) (idx 2) (idx 3)

/-- `u_mat_ph1 = u_mat.transpose(0, 2, 3, 1)` from `SaveBSE.save_gamma0`. -/
def u_mat_ph1 (u : T4) : T4 := transpose4 0 2 3 1 u

/-- `u_mat_ph2 = u_mat.transpose(0, 3, 2, 1)` from `SaveBSE.save_gamma0`. -/
def u_mat_ph2 (u : T4) : T4 := transpose4 0 3 2 1 u

/-- The assembled bare vertex tensor `- u_mat_ph1 + u_mat_ph2`, the
flavor-resolved quantity whose blocks `SaveBSE.save_gamma0` stores. -/
def gamma0_tensor (u : T4) : T4 :=
  fun a b c d => - u_mat_ph1 u a b c d + u_mat_ph2 u a b c d

/-- Modelled from the spec's words (for comparison with the code): the
claimed first particle-hole transposition, with subscripts permuted
directly: the claim reads the axis tuple as subscript positions. -/
def u_ph1_claimed (u : T4) : T4 := fun a b c d => u a c d b

/-- Modelled from the spec's words (for comparison with the code): the
claimed second particle-hole transposition. -/
def u_ph2_claimed (u : T4) : T4 := fun a b c d => u a d c b

/-- Modelled from the spec's words: the claimed bare vertex
`Gamma0 = U_ph2 - U_ph1` built from the claimed transpositions. -/
def gamma0_claimed (u : T4) : T4 :=
  fun a b c d => u_ph2_claimed u a b c d - u_ph1_claimed u a b c d

/-- A concrete interaction tensor with two flavors separating the two
transposition conventions: a single one at index (0,1,0,0). -/
def uEx : T4 := fun a b c d => if a = 0 ∧ b = 1 ∧ c = 0 ∧ d = 0 then 1 else 0

/-- C2 counterexample: on the concrete two-flavor tensor `uEx`, the bare
vertex assembled by the code differs at indices (0,0,0,1) from the
vertex the claim's transposition formulas prescribe: the code yields 0,
the claim yields 1.  numpy's `transpose(0,2,3,1)` satisfies
`U_ph1[a,b,c,d] = U[a,d,b,c]`, not the claimed `U[a,c,d,b]`. -/
theorem gamma0_transpose_claim_cex :
    gamma0_tensor uEx 0 0 0 1 ≠ gamma0_claimed uEx 0 0 0 1 := by
  decide

/-- C2 amended: for every input tensor, the code's particle-hole
transpositions satisfy `U_ph1[a,b,c,d] = U[a,d,b,c]` (the inverse of the
claimed permutation) and `U_ph2[a,b,c,d] = U[a,d,c,b]` (as claimed, the
axis tuple (0,3,2,1) being an involution), and the assembled bare vertex
is `Gamma0[a,b,c,d] = U[a,d,c,b] - U[a,d,b,c]`. -/
theorem gamma0_transpose_formula (u : T4) (a b c d : ℕ) :
    u_mat_ph1 u a b c d = u a d b c ∧
    u_mat_ph2 u a b c d = u a d c b ∧
    gamma0_tensor u a b c d = u a d c b - u a d b c := by
  refine ⟨rfl, rfl, ?_⟩
  show - u a d b c + u a d c b = u a d c b - u a d b c
  ring

/-- One spin block of the impurity Green's function `gimp[sp]`: an array
`data[iw, o1, o2]` with `norb` orbitals and `nw` frequency points. -/
structure GBlock where
  norb : ℕ
  nw : ℕ
  data : ℕ → ℕ → ℕ → ℤ

/-- One stored entry of `X_loc`: the flavor 4-tuple key `(i1,i2,i3,i4)`
and the array `data[wb, if1, if2]` of shape `(nwb, nwf, nwf)`. -/
structure XEntry where
  i1 : ℕ
  i2 : ℕ
  i3 : ℕ
  i4 : ℕ
  nwb : ℕ
  nwf : ℕ
  data : ℕ → ℕ → ℕ → ℤ

/-- The flattened Green's-function lookup built by `subtract_disconnected`:
for each spin block `isp` and orbitals `o1, o2 < norb`, the key
`(o1 + isp*norb, o2 + isp*norb)` maps to the frequency series
`gimp[sp].data[:, o1, o2]` (paired with its length). -/
def g_ij_entries (gimp : List GBlock) : List ((ℕ × ℕ) × (ℕ × (ℕ → ℤ))) :=
  gimp.enum.flatMap (fun b =>
    ((List.range b.2.norb) ×ˢ (List.range b.2.norb)).map (fun p =>
      ((p.1 + b.1 * b.2.norb, p.2 + b.1 * b.2.norb),
        (b.2.nw, fun iw => b.2.data iw p.1 p.2))))

/-- `w0 = g_ij[(0, 0)].shape[0] / 2`, the midpoint index of the series
stored under key `(0, 0)` (Python 2 integer division). -/
def gw0 (g : List ((ℕ × ℕ) × (ℕ × (ℕ → ℤ)))) : ℕ :=
  match dictLookup g (0, 0) with
  | some s => s.1 / 2
  | none => 0

/-- Python sequence indexing of an array of length `nw` at a possibly
negative index `t` (negative indices wrap from the end). -/
def pyGet (nw : ℕ) (f : ℕ → ℤ) (t : ℤ) : ℤ :=
  if 0 ≤ t ∧ t < (nw : ℤ) then f t.toNat
  else if -(nw : ℤ) ≤ t ∧ t < 0 then f (t + nw).toNat
  else 0

/-- The helper `g(_i, _j, _w) = g_ij[(_i, _j)][w0 + _w]`. -/
def gval (g : List ((ℕ × ℕ) × (ℕ × (ℕ → ℤ)))) (w0 : ℕ) (i j : ℕ) (w : ℤ) : ℤ :=
  match dictLookup g (i, j) with
  | some s => pyGet s.1 s.2 ((w0 : ℤ) + w)
  | none => 0

/-- Direct access to the series stored under key `k` at index `t`:
the claim-level reading of `G[k][t]`. -/
def seriesAt (g : List ((ℕ × ℕ) × (ℕ × (ℕ → ℤ)))) (k : ℕ × ℕ) (t : ℕ) : ℤ :=
  match dictLookup g k with
  | some s => s.2 t
  | none => 0

/-- Pointwise update of a rank-3 array at one coordinate. -/
def upd3 (f : ℕ → ℕ → ℕ → ℤ) (a b c : ℕ) (v : ℤ) : ℕ → ℕ → ℕ → ℤ :=
  fun x y z => if x = a ∧ y = b ∧ z = c then v else f x y z

/-- The inner loop of `subtract_disconnected` on one `X_loc` entry:
for every `(if1, if2)` in `product(range(n_wf), repeat=2)`, execute
`data[0, if1, if2] -= g(i2, i1, if1 - n_wf/2) * g(i3, i4, if2 - n_wf/2)`. -/
def subtractEntry (g : List ((ℕ × ℕ) × (ℕ × (ℕ → ℤ)))) (w0 : ℕ)
    (e : XEntry) : ℕ → ℕ → ℕ → ℤ :=
  ((List.range e.nwf) ×ˢ (List.range e.nwf)).foldl
    (fun d p =>
      upd3 d 0 p.1 p.2
        (d 0 p.1 p.2 -
          gval g w0 e.i2 e.i1 ((p.1 : ℤ) - ((e.nwf / 2 : ℕ) : ℤ)) *
          gval g w0 e.i3 e.i4 ((p.2 : ℤ) - ((e.nwf / 2 : ℕ) : ℤ))))
    e.data

/-- The body of the `for (i1, i2, i3, i4), data in xloc.items()` loop:
skip the entry if `g_ij` lacks `(i2, i1)` or `(i3, i4)`, otherwise
subtract the disconnected product in place at bosonic index 0. -/
def subtractOne (g : List ((ℕ × ℕ) × (ℕ × (ℕ → ℤ)))) (w0 : ℕ)
    (e : XEntry) : XEntry :=
  if hasKey g (e.i2, e.i1) && hasKey g (e.i3, e.i4) then
    { e with data := subtractEntry g w0 e }
  else e

/-- `subtract_disconnected(xloc, gimp, spin_names)`: build the flattened
lookup `g_ij` from `gimp`, take `w0` as the midpoint of the series at
key `(0, 0)`, and update every stored entry in place. -/
def subtract_disconnected (xloc : List XEntry) (gimp : List GBlock) :
    List XEntry :=
  let g := g_ij_entries gimp
  xloc.map (subtractOne g (gw0 g))

theorem foldl_upd3_not_target (c : ℕ → ℕ → ℤ) (l : List (ℕ × ℕ))
    (d : ℕ → ℕ → ℕ → ℤ) (x y z : ℕ) (h : x ≠ 0 ∨ (y, z) ∉ l) :
    (l.foldl (fun d p => upd3 d 0 p.1 p.2 (d 0 p.1 p.2 - c p.1 p.2)) d)
        x y z = d x y z := by
  induction l generalizing d with
  | nil => rfl
  | cons p rest ih =>
      rw [List.foldl_cons]
      have hrest : x ≠ 0 ∨ (y, z) ∉ rest := by
        rcases h with h | h
        · exact Or.inl h
        · exact Or.inr (fun hm => h (List.mem_cons_of_mem _ hm))
      rw [ih _ hrest]
      have hx : ¬(x = 0 ∧ y = p.1 ∧ z = p.2) := by
        rintro ⟨h0, h1, h2⟩
        rcases h with h | h
        · exact h h0
        · exact h (by rw [h1, h2]; exact List.mem_cons_self _ _)
      simp [upd3, hx]

theorem foldl_upd3_target (c : ℕ → ℕ → ℤ) (l : List (ℕ × ℕ))
    (d : ℕ → ℕ → ℕ → ℤ) (a b : ℕ) (hnd : l.Nodup) (hm : (a, b) ∈ l) :
    (l.foldl (fun d p => upd3 d 0 p.1 p.2 (d 0 p.1 p.2 - c p.1 p.2)) d)
        0 a b = d 0 a b - c a b := by
  induction l generalizing d with
  | nil => cases hm
  | cons p rest ih =>
      rw [List.foldl_cons]
      rcases List.mem_cons.mp hm with heq | hmem
      · have hnot : (a, b) ∉ rest := by
          rw [heq]
          exact (List.nodup_cons.mp hnd).1
        rw [foldl_upd3_not_target c rest _ 0 a b (Or.inr hnot)]
        have h1 : a = p.1 := by rw [← heq]
        have h2 : b = p.2 := by rw [← heq]
        simp [upd3, ← h1, ← h2]
      · rw [ih _ (List.nodup_cons.mp hnd).2 hmem]
        have hne : ¬(a = p.1 ∧ b = p.2) := by
          rintro ⟨h1, h2⟩
          have hp : p = (a, b) := by
            cases p
            simp only at h1 h2
            rw [h1, h2]
          exact (List.nodup_cons.mp hnd).1 (by rw [hp]; exact hmem)
        have : upd3 d 0 p.1 p.2 (d 0 p.1 p.2 - c p.1 p.2) 0 a b = d 0 a b := by
          simp only [upd3]
          rw [if_neg]
          rintro ⟨_, h1, h2⟩
          exact hne ⟨h1, h2⟩
        rw [this]

theorem dictLookup_mem {α : Type} (l : List ((ℕ × ℕ) × α)) (k : ℕ × ℕ)
    (v : α) (h : dictLookup l k = some v) : (k, v) ∈ l := by
  induction l with
  | nil => cases h
  | cons e rest ih =>
      simp only [dictLookup] at h
      cases hr : dictLookup rest k with
      | some w =>
          rw [hr] at h
          cases h
          exact List.mem_cons_of_mem _ (ih hr)
      | none =>
          rw [hr] at h
          by_cases he : e.1 = k
          · rw [if_pos he] at h
            cases h
            rw [← he]
            exact List.mem_cons_self _ _
          · rw [if_neg he] at h
            cases h

theorem g_ij_entries_nw (gimp : List GBlock) (N : ℕ)
    (hN : ∀ blk ∈ gimp, blk.nw = N) (k : ℕ × ℕ) (s : ℕ × (ℕ → ℤ))
    (h : (k, s) ∈ g_ij_entries gimp) : s.1 = N := by
  simp only [g_ij_entries, List.mem_flatMap, List.mem_map] at h
  obtain ⟨b, hb, p, _, hps⟩ := h
  have hblk : b.2 ∈ gimp :=
    List.getElem?_mem (List.mem_enum_iff_getElem?.mp hb)
  have := congrArg Prod.snd hps
  simp only at this
  rw [← this]
  exact hN b.2 hblk

theorem dictLookup_g_ij_nw (gimp : List GBlock) (N : ℕ)
    (hN : ∀ blk ∈ gimp, blk.nw = N) (k : ℕ × ℕ) (s : ℕ × (ℕ → ℤ))
    (h : dictLookup (g_ij_entries gimp) k = some s) : s.1 = N :=
  g_ij_entries_nw gimp N hN k s (dictLookup_mem _ _ _ h)

theorem gval_eq_seriesAt (g : List ((ℕ × ℕ) × (ℕ × (ℕ → ℤ)))) (N : ℕ)
    (hG : ∀ k s, dictLookup g k = some s → s.1 = N) (hNeven : N % 2 = 0)
    (i j nwf f : ℕ) (hnwf : nwf % 2 = 0) (hle : nwf ≤ N) (hf : f < nwf)
    (hkey : hasKey g (i, j) = true) :
    gval g (N / 2) i j ((f : ℤ) - ((nwf / 2 : ℕ) : ℤ)) =
      seriesAt g (i, j) (N / 2 + f - nwf / 2) := by
  obtain ⟨s, hs⟩ := dictLookup_isSome_of_hasKey g (i, j) hkey
  have hs1 : s.1 = N := hG _ _ hs
  simp only [gval, seriesAt, hs, hs1]
  rw [pyGet, if_pos (by omega)]
  have harg : (((N / 2 : ℕ) : ℤ) + ((f : ℤ) - ((nwf / 2 : ℕ) : ℤ))).toNat =
      N / 2 + f - nwf / 2 := by omega
  rw [harg]

/-- C1: for every 4-tuple `(i1,i2,i3,i4)` stored in `X_loc` such that both
pairs `(i2,i1)` and `(i3,i4)` exist in the flattened Green's-function
lookup built from `G_imp`, `subtract_disconnected` replaces the value at
bosonic index 0 and fermionic indices `(f1,f2)` by the raw value minus
`G[(i2,i1)][w0 + wf1] * G[(i3,i4)][w0 + wf2]` where `wf = f - n_wf/2`
(centered convention) and `w0 = N/2` is the midpoint of the
Green's-function frequency series; for every 4-tuple where either pair is
absent, the whole entry is left numerically unmodified. -/
theorem subtract_disconnected_correct
    (xloc : List XEntry) (gimp : List GBlock) (N : ℕ)
    (hN : ∀ blk ∈ gimp, blk.nw = N) (hNeven : N % 2 = 0)
    (h00 : hasKey (g_ij_entries gimp) (0, 0) = true)
    (e : XEntry) (he : e ∈ xloc) (hnwf : e.nwf % 2 = 0) (hle : e.nwf ≤ N) :
    subtract_disconnected xloc gimp =
      xloc.map (subtractOne (g_ij_entries gimp) (gw0 (g_ij_entries gimp))) ∧
    (hasKey (g_ij_entries gimp) (e.i2, e.i1) = true →
      hasKey (g_ij_entries gimp) (e.i3, e.i4) = true →
      ∀ f1 f2 : ℕ, f1 < e.nwf → f2 < e.nwf →
        (subtractOne (g_ij_entries gimp) (gw0 (g_ij_entries gimp)) e).data
            0 f1 f2 =
          e.data 0 f1 f2 -
            seriesAt (g_ij_entries gimp) (e.i2, e.i1)
              (N / 2 + f1 - e.nwf / 2) *
            seriesAt (g_ij_entries gimp) (e.i3, e.i4)
              (N / 2 + f2 - e.nwf / 2)) ∧
    ((hasKey (g_ij_entries gimp) (e.i2, e.i1) = false ∨
      hasKey (g_ij_entries gimp) (e.i3, e.i4) = false) →
      subtractOne (g_ij_entries gimp) (gw0 (g_ij_entries gimp)) e = e) := by
  have hG : ∀ k s, dictLookup (g_ij_entries gimp) k = some s → s.1 = N :=
    dictLookup_g_ij_nw gimp N hN
  have hw0 : gw0 (g_ij_entries gimp) = N / 2 := by
    obtain ⟨s0, hs0⟩ := dictLookup_isSome_of_hasKey _ _ h00
    simp only [gw0, hs0, hG _ _ hs0]
  refine ⟨rfl, ?_, ?_⟩
  · intro hk1 hk2 f1 f2 hf1 hf2
    have hcond : (hasKey (g_ij_entries gimp) (e.i2, e.i1) &&
        hasKey (g_ij_entries gimp) (e.i3, e.i4)) = true := by
      rw [hk1, hk2]; rfl
    simp only [subtractOne, hcond, if_true]
    have hfold :
        subtractEntry (g_ij_entries gimp) (gw0 (g_ij_entries gimp)) e
            0 f1 f2 =
          e.data 0 f1 f2 -
            gval (g_ij_entries gimp) (gw0 (g_ij_entries gimp)) e.i2 e.i1
                ((f1 : ℤ) - ((e.nwf / 2 : ℕ) : ℤ)) *
              gval (g_ij_entries gimp) (gw0 (g_ij_entries gimp)) e.i3 e.i4
                ((f2 : ℤ) - ((e.nwf / 2 : ℕ) : ℤ)) :=
      foldl_upd3_target
        (fun a b =>
          gval (g_ij_entries gimp) (gw0 (g_ij_entries gimp)) e.i2 e.i1
              ((a : ℤ) - ((e.nwf / 2 : ℕ) : ℤ)) *
            gval (g_ij_entries gimp) (gw0 (g_ij_entries gimp)) e.i3 e.i4
              ((b : ℤ) - ((e.nwf / 2 : ℕ) : ℤ)))
        _ e.data f1 f2
        ((List.nodup_range e.nwf).product (List.nodup_range e.nwf))
        (List.mem_product.mpr
          ⟨List.mem_range.mpr hf1, List.mem_range.mpr hf2⟩)
    rw [hfold, hw0,
      gval_eq_seriesAt _ N hG hNeven e.i2 e.i1 e.nwf f1 hnwf hle hf1 hk1,
      gval_eq_seriesAt _ N hG hNeven e.i3 e.i4 e.nwf f2 hnwf hle hf2 hk2]
  · intro h
    rcases h with h | h
    · simp [subtractOne, h]
    · simp [subtractOne, h]

/-- A concrete one-orbital impurity Green's function with four frequency
points, for witnessing. -/
def gimpW : List GBlock := [⟨1, 4, fun iw _ _ => (iw : ℤ) + 1⟩]

/-- A concrete `X_loc` entry with two bosonic and two fermionic
frequencies, for witnessing. -/
def eW : XEntry :=
  ⟨0, 0, 0, 0, 2, 2, fun wb f1 f2 => 10 * (wb : ℤ) + 3 * (f1 : ℤ) + (f2 : ℤ)⟩

/-- A concrete one-entry `X_loc`, for witnessing. -/
def xlocW : List XEntry := [eW]

/-- Witness for C1: the subtraction formula evaluated at the concrete
one-orbital input. -/
theorem subtract_disconnected_correct_witness :
    (subtractOne (g_ij_entries gimpW) (gw0 (g_ij_entries gimpW)) eW).data
        0 0 1 =
      eW.data 0 0 1 -
        seriesAt (g_ij_entries gimpW) (eW.i2, eW.i1)
            (4 / 2 + 0 - eW.nwf / 2) *
          seriesAt (g_ij_entries gimpW) (eW.i3, eW.i4)
            (4 / 2 + 1 - eW.nwf / 2) :=
  (subtract_disconnected_correct xlocW gimpW 4
      (by intro blk hb; rw [List.mem_singleton.mp hb])
      (by decide) (by decide) eW (List.mem_singleton.mpr rfl)
      (by decide) (by decide)).2.1 (by decide) (by decide)
    0 1 (by decide) (by decide)

/-- C3: applying `subtract_disconnected` once changes values only at
bosonic index 0: the entry list keeps its length, every entry keeps its
4-tuple key and its shape, and every bosonic slice with index greater
than 0 is numerically identical before and after. -/
theorem subtract_disconnected_frame (xloc : List XEntry) (gimp : List GBlock)
    (k : ℕ) (hk : k < xloc.length) :
    (subtract_disconnected xloc gimp).length = xloc.length ∧
    ∀ hk2 : k < (subtract_disconnected xloc gimp).length,
      ((subtract_disconnected xloc gimp).get ⟨k, hk2⟩).i1 =
          (xloc.get ⟨k, hk⟩).i1 ∧
      ((subtract_disconnected xloc gimp).get ⟨k, hk2⟩).i2 =
          (xloc.get ⟨k, hk⟩).i2 ∧
      ((subtract_disconnected xloc gimp).get ⟨k, hk2⟩).i3 =
          (xloc.get ⟨k, hk⟩).i3 ∧
      ((subtract_disconnected xloc gimp).get ⟨k, hk2⟩).i4 =
          (xloc.get ⟨k, hk⟩).i4 ∧
      ((subtract_disconnected xloc gimp).get ⟨k, hk2⟩).nwb =
          (xloc.get ⟨k, hk⟩).nwb ∧
      ((subtract_disconnected xloc gimp).get ⟨k, hk2⟩).nwf =
          (xloc.get ⟨k, hk⟩).nwf ∧
      ∀ wb, 0 < wb → ∀ f1 f2 : ℕ,
        ((subtract_disconnected xloc gimp).get ⟨k, hk2⟩).data wb f1 f2 =
          (xloc.get ⟨k, hk⟩).data wb f1 f2 := by
  constructor
  · simp [subtract_disconnected]
  · intro hk2
    have hmap : (subtract_disconnected xloc gimp).get ⟨k, hk2⟩ =
        subtractOne (g_ij_entries gimp) (gw0 (g_ij_entries gimp))
          (xloc.get ⟨k, hk⟩) := by
      simp [subtract_disconnected]
    rw [hmap]
    set g := g_ij_entries gimp
    set w0 := gw0 g
    set e := xloc.get ⟨k, hk⟩
    by_cases hc : (hasKey g (e.i2, e.i1) && hasKey g (e.i3, e.i4)) = true
    · have hdef : subtractOne g w0 e = { e with data := subtractEntry g w0 e } := by
        simp [subtractOne, hc]
      rw [hdef]
      refine ⟨rfl, rfl, rfl, rfl, rfl, rfl, ?_⟩
      intro wb hwb f1 f2
      show subtractEntry g w0 e wb f1 f2 = e.data wb f1 f2
      exact foldl_upd3_not_target
        (fun a b =>
          gval g w0 e.i2 e.i1 ((a : ℤ) - ((e.nwf / 2 : ℕ) : ℤ)) *
            gval g w0 e.i3 e.i4 ((b : ℤ) - ((e.nwf / 2 : ℕ) : ℤ)))
        _ e.data wb f1 f2 (Or.inl (by omega))
    · simp only [subtractOne, hc, if_false]
      exact ⟨rfl, rfl, rfl, rfl, rfl, rfl, fun _ _ _ _ => rfl⟩

/-- Witness for C3: the bosonic slice 1 of the concrete entry is untouched. -/
theorem subtract_disconnected_frame_witness :
    ((subtract_disconnected xlocW gimpW).get ⟨0, by decide⟩).data 1 0 0 =
      (xlocW.get ⟨0, by decide⟩).data 1 0 0 :=
  (((subtract_disconnected_frame xlocW gimpW 0 (by decide)).2
      (by decide)).2.2.2.2.2.2) 1 (by decide) 0 0

/-- The stage's error taxonomy: Python assertion failures and the
ValueError raised on an invalid metadata mode. -/
inductive BSEErr where
  | assertionError
  | valueError
deriving DecidableEq

/-- The scalar metadata of the h5BSE archive: the external store is
modelled at its documented interface as three optional entries, absent
until written.  The inverse temperature is carried exactly. -/
structure H5Store where
  block_name : Option (List String)
  inner_name : Option (List String)
  betaVal : Option ℚ
deriving DecidableEq

/-- The metadata branch of `SaveBSE.__init__(bse_info, ...)`: in 'check'
mode assert that the three stored entries equal the supplied values (an
absent entry compares unequal, as Python's `None == value` is false); in
'save' mode write the three entries unconditionally; any other mode
raises ValueError. -/
def saveBSE_init (bse_info : String) (blockNames innerNames : List String)
    (beta : ℚ) (st : H5Store) : Except BSEErr H5Store :=
  if bse_info = "check" then
    if st.block_name = some blockNames then
      if st.inner_name = some innerNames then
        if st.betaVal = some beta then Except.ok st
        else Except.error BSEErr.assertionError
      else Except.error BSEErr.assertionError
    else Except.error BSEErr.assertionError
  else if bse_info = "save" then
    Except.ok { st with block_name := some blockNames,
                        inner_name := some innerNames,
                        betaVal := some beta }
  else Except.error BSEErr.valueError

theorem saveBSE_init_check_ok (blockNames innerNames : List String)
    (b : ℚ) (st st1 : H5Store)
    (h : saveBSE_init "check" blockNames innerNames b st = Except.ok st1) :
    st1 = st ∧ st.block_name = some blockNames ∧
      st.inner_name = some innerNames ∧ st.betaVal = some b := by
  unfold saveBSE_init at h
  rw [if_pos rfl] at h
  by_cases h1 : st.block_name = some blockNames
  · rw [if_pos h1] at h
    by_cases h2 : st.inner_name = some innerNames
    · rw [if_pos h2] at h
      by_cases h3 : st.betaVal = some b
      · rw [if_pos h3] at h
        cases h
        exact ⟨rfl, h1, h2, h3⟩
      · rw [if_neg h3] at h; cases h
    · rw [if_neg h2] at h; cases h
  · rw [if_neg h1] at h; cases h

theorem saveBSE_init_check_match (blockNames innerNames : List String)
    (b : ℚ) (st : H5Store) (h1 : st.block_name = some blockNames)
    (h2 : st.inner_name = some innerNames) (h3 : st.betaVal = some b) :
    saveBSE_init "check" blockNames innerNames b st = Except.ok st := by
  unfold saveBSE_init
  rw [if_pos rfl, if_pos h1, if_pos h2, if_pos h3]

theorem saveBSE_init_check_mismatch (blockNames innerNames : List String)
    (b : ℚ) (st : H5Store)
    (h : st.block_name ≠ some blockNames ∨ st.inner_name ≠ some innerNames ∨
      st.betaVal ≠ some b) :
    saveBSE_init "check" blockNames innerNames b st =
      Except.error BSEErr.assertionError := by
  unfold saveBSE_init
  rw [if_pos rfl]
  by_cases h1 : st.block_name = some blockNames
  · rw [if_pos h1]
    by_cases h2 : st.inner_name = some innerNames
    · rw [if_pos h2]
      have h3 : st.betaVal ≠ some b := by tauto
      rw [if_neg h3]
    · rw [if_neg h2]
  · rw [if_neg h1]

theorem saveBSE_init_other_mode (mode : String)
    (blockNames innerNames : List String) (b : ℚ) (st : H5Store)
    (hs : mode ≠ "save") (hc : mode ≠ "check") :
    saveBSE_init mode blockNames innerNames b st =
      Except.error BSEErr.valueError := by
  unfold saveBSE_init
  rw [if_neg hc, if_neg hs]

/-- C4: the store constructor accepts exactly two metadata modes: in
'save' mode it writes the three metadata entries unconditionally; in
'check' mode it succeeds (returning the store untouched) exactly when
all three stored entries equal the supplied values and fails fatally on
any difference; any other mode raises an error. -/
theorem saveBSE_init_modes (blockNames innerNames : List String) (b : ℚ)
    (st : H5Store) (mode : String) :
    saveBSE_init "save" blockNames innerNames b st =
      Except.ok { st with block_name := some blockNames,
                          inner_name := some innerNames,
                          betaVal := some b } ∧
    (saveBSE_init "check" blockNames innerNames b st = Except.ok st ↔
      st.block_name = some blockNames ∧ st.inner_name = some innerNames ∧
        st.betaVal = some b) ∧
    ((st.block_name ≠ some blockNames ∨ st.inner_name ≠ some innerNames ∨
        st.betaVal ≠ some b) →
      saveBSE_init "check" blockNames innerNames b st =
        Except.error BSEErr.assertionError) ∧
    (mode ≠ "save" → mode ≠ "check" →
      saveBSE_init mode blockNames innerNames b st =
        Except.error BSEErr.valueError) := by
  refine ⟨rfl, ?_, ?_, ?_⟩
  · constructor
    · intro h
      exact (saveBSE_init_check_ok blockNames innerNames b st st h).2
    · rintro ⟨h1, h2, h3⟩
      exact saveBSE_init_check_match blockNames innerNames b st h1 h2 h3
  · exact saveBSE_init_check_mismatch blockNames innerNames b st
  · exact saveBSE_init_other_mode mode blockNames innerNames b st

/-- Witness for C4: a matching check succeeds, a perturbed beta fails,
and an unknown mode raises ValueError, at concrete values. -/
theorem saveBSE_init_modes_witness :
    saveBSE_init "check" ["sh0"] ["in0"] 10 ⟨some ["sh0"], some ["in0"], some 10⟩ =
        Except.ok ⟨some ["sh0"], some ["in0"], some 10⟩ ∧
    saveBSE_init "check" ["sh0"] ["in0"] 10 ⟨some ["sh0"], some ["in0"], some 20⟩ =
        Except.error BSEErr.assertionError ∧
    saveBSE_init "declare" ["sh0"] ["in0"] 10 ⟨none, none, none⟩ =
        Except.error BSEErr.valueError :=
  ⟨(saveBSE_init_modes ["sh0"] ["in0"] 10
      ⟨some ["sh0"], some ["in0"], some 10⟩ "declare").2.1.mpr
      ⟨rfl, rfl, rfl⟩,
   (saveBSE_init_modes ["sh0"] ["in0"] 10
      ⟨some ["sh0"], some ["in0"], some 20⟩ "declare").2.2.1
      (Or.inr (Or.inr (by decide))),
   (saveBSE_init_modes ["sh0"] ["in0"] 10 ⟨none, none, none⟩ "declare").2.2.2
      (by decide) (by decide)⟩

/-- Observable effects of the local-susceptibility stage: impurity-solver
invocations and tensor writes to the archive (gamma0 per shell, X_loc per
mapped correlated shell). -/
inductive StageEffect where
  | solver_call (ish : ℕ)
  | write_gamma0 (icrsh : ℕ)
  | write_xloc (icrsh : ℕ)
deriving DecidableEq

/-- Configuration of `DMFTBSESolver._calc_bse_xloc`: the per-shell block
structure (block name and flavor indices per block, per inequivalent
shell), the skip flag, the shell maps of the SumkDFT collaborator, and
the metadata triple the SaveBSE constructor will verify. -/
structure StageParams where
  gf_struct : List (List (String × List ℕ))
  skip_Xloc : Bool
  n_corr_shells : ℕ
  inequiv_to_corr : ℕ → ℕ
  corr_to_inequiv : ℕ → ℕ
  blockNames : List String
  innerNames : List String
  betaVal : ℚ

/-- `calc_num_flavors(ish)`: total flavor count of inequivalent shell
`ish`, the sum of `len(indices)` over the blocks of its `gf_struct`. -/
def calc_num_flavors (p : StageParams) (ish : ℕ) : ℕ :=
  ((p.gf_struct.getD ish []).map (fun blk => blk.2.length)).sum

/-- Result of the stage: the archive metadata, the effect log, and
normal or erroneous termination. -/
structure StageOut where
  store : H5Store
  effects : List StageEffect
  result : Except BSEErr Unit

/-- The part of `_calc_bse_xloc` after the flavor-count assertion: the
'check'-mode store construction, the per-inequivalent-shell gamma0
writes, then (unless `skip_Xloc`) one solver call per inequivalent shell
followed by an X_loc write for each correlated shell mapped to it. -/
def calc_bse_xloc_rest (p : StageParams) (st : H5Store) : StageOut :=
  match saveBSE_init "check" p.blockNames p.innerNames p.betaVal st with
  | Except.error e => ⟨st, [], Except.error e⟩
  | Except.ok st1 =>
      let gammaEffs := (List.range p.gf_struct.length).map
        (fun ish => StageEffect.write_gamma0 (p.inequiv_to_corr ish))
      if p.skip_Xloc then ⟨st1, gammaEffs, Except.ok ()⟩
      else
        let xlocEffs := (List.range p.gf_struct.length).flatMap
          (fun ish =>
            StageEffect.solver_call ish ::
              (List.range p.n_corr_shells).filterMap
                (fun icrsh =>
                  if p.corr_to_inequiv icrsh = ish then
                    some (StageEffect.write_xloc icrsh)
                  else none))
        ⟨st1, gammaEffs ++ xlocEffs, Except.ok ()⟩

/-- `DMFTBSESolver._calc_bse_xloc` as state plus effect log: first the
flavor-count assertion over all inequivalent shells, then the rest of
the stage. -/
def calc_bse_xloc (p : StageParams) (st : H5Store) : StageOut :=
  if ∀ ish < p.gf_struct.length,
      calc_num_flavors p ish = calc_num_flavors p 0 then
    calc_bse_xloc_rest p st
  else
    ⟨st, [], Except.error BSEErr.assertionError⟩

/-- C6: if the per-shell total flavor counts are not all identical across
the inequivalent shells, the local-susceptibility stage fails fatally
before any impurity-solver invocation and before any tensor write (empty
effect log); if they are all identical, the flavor check passes and the
stage proceeds. -/
theorem calc_bse_xloc_flavor_precondition (p : StageParams) (st : H5Store) :
    ((∃ ish, ish < p.gf_struct.length ∧
        calc_num_flavors p ish ≠ calc_num_flavors p 0) →
      (calc_bse_xloc p st).result = Except.error BSEErr.assertionError ∧
      (calc_bse_xloc p st).effects = [] ∧
      ∀ ish, StageEffect.solver_call ish ∉ (calc_bse_xloc p st).effects) ∧
    ((∀ ish < p.gf_struct.length,
        calc_num_flavors p ish = calc_num_flavors p 0) →
      calc_bse_xloc p st = calc_bse_xloc_rest p st) := by
  constructor
  · intro h
    have hno : ¬ ∀ ish < p.gf_struct.length,
        calc_num_flavors p ish = calc_num_flavors p 0 := by
      obtain ⟨ish, hlt, hne⟩ := h
      exact fun hall => hne (hall ish hlt)
    rw [calc_bse_xloc, if_neg hno]
    exact ⟨rfl, rfl, fun ish => List.not_mem_nil _⟩
  · intro hall
    rw [calc_bse_xloc, if_pos hall]

/-- A concrete configuration with heterogeneous flavor counts 4, 4, 6. -/
def p446 : StageParams :=
  ⟨[[("ud", [0, 1, 2, 3])], [("ud", [0, 1, 2, 3])],
      [("ud", [0, 1, 2, 3, 4, 5])]],
    false, 3, id, id, ["sh0"], ["in0"], 10⟩

/-- Witness for C6: flavor counts 4, 4, 6 abort the stage with an empty
effect log. -/
theorem calc_bse_xloc_flavor_precondition_witness :
    (calc_bse_xloc p446 ⟨some ["sh0"], some ["in0"], some 10⟩).result =
        Except.error BSEErr.assertionError ∧
      (calc_bse_xloc p446 ⟨some ["sh0"], some ["in0"], some 10⟩).effects = [] ∧
      ∀ ish, StageEffect.solver_call ish ∉
        (calc_bse_xloc p446 ⟨some ["sh0"], some ["in0"], some 10⟩).effects :=
  (calc_bse_xloc_flavor_precondition p446
      ⟨some ["sh0"], some ["in0"], some 10⟩).1
    ⟨2, by decide, by decide⟩

/-- C9: the local-susceptibility stage always constructs the tensor store
in 'check' mode, never 'save': it never writes the metadata entries (the
archive metadata after the stage equals the metadata before), and run
against an archive whose metadata entries are absent or differ from the
current run's parameters it fails before any tensor is written (empty
effect log). -/
theorem calc_bse_xloc_check_mode (p : StageParams) (st : H5Store) :
    (calc_bse_xloc p st).store = st ∧
    ((st.block_name ≠ some p.blockNames ∨ st.inner_name ≠ some p.innerNames ∨
        st.betaVal ≠ some p.betaVal) →
      (calc_bse_xloc p st).result = Except.error BSEErr.assertionError ∧
      (calc_bse_xloc p st).effects = []) := by
  have hrest : ∀ q : StageParams, ∀ s : H5Store,
      (calc_bse_xloc_rest q s).store = s := by
    intro q s
    unfold calc_bse_xloc_rest
    cases hinit : saveBSE_init "check" q.blockNames q.innerNames q.betaVal s with
    | error e => rfl
    | ok s1 =>
        have := (saveBSE_init_check_ok _ _ _ _ _ hinit).1
        subst this
        by_cases hsk : q.skip_Xloc
        · simp [hsk]
        · simp [hsk]
  constructor
  · unfold calc_bse_xloc
    by_cases hall : ∀ ish < p.gf_struct.length,
        calc_num_flavors p ish = calc_num_flavors p 0
    · rw [if_pos hall]
      exact hrest p st
    · rw [if_neg hall]
  · intro hmm
    have hinit := saveBSE_init_check_mismatch p.blockNames p.innerNames
      p.betaVal st hmm
    unfold calc_bse_xloc
    by_cases hall : ∀ ish < p.gf_struct.length,
        calc_num_flavors p ish = calc_num_flavors p 0
    · rw [if_pos hall]
      unfold calc_bse_xloc_rest
      rw [hinit]
      exact ⟨rfl, rfl⟩
    · rw [if_neg hall]
      exact ⟨rfl, rfl⟩

/-- Witness for C9: a store with a differing beta aborts the stage before
any write, with the metadata left untouched. -/
theorem calc_bse_xloc_check_mode_witness :
    (calc_bse_xloc p446 ⟨some ["sh0"], some ["in0"], some 20⟩).store =
        ⟨some ["sh0"], some ["in0"], some 20⟩ ∧
    (calc_bse_xloc p446 ⟨some ["sh0"], some ["in0"], some 20⟩).result =
        Except.error BSEErr.assertionError ∧
    (calc_bse_xloc p446 ⟨some ["sh0"], some ["in0"], some 20⟩).effects = [] :=
  ⟨(calc_bse_xloc_check_mode p446 ⟨some ["sh0"], some ["in0"], some 20⟩).1,
    (calc_bse_xloc_check_mode p446 ⟨some ["sh0"], some ["in0"], some 20⟩).2
      (Or.inr (Or.inr (by decide)))⟩

/-- Process-wide filesystem state seen by `calc_g2_in_impurity_model`:
the current working directory and the set of existing directories. -/
structure FileSys where
  cwd : String
  dirs : List String
deriving DecidableEq

/-- Failure of the external impurity solver (an exception raised by
`sol.calc_g2`, propagating to the caller). -/
inductive SolverErr where
  | solverFailure
deriving DecidableEq

/-- The working-directory discipline of `calc_g2_in_impurity_model`:
save `os.getcwd()`, create and enter `work/imp_shell<ish>_bse`, run the
solver, and chdir back only after a normal return.  The external solver
is a parameter; when it raises, the exception propagates with the
process still inside the work directory (there is no try/finally). -/
def calc_g2_in_impurity_model {α : Type} (ish : ℕ)
    (solve : Except SolverErr α) (fs : FileSys) :
    Except SolverErr α × FileSys :=
  let work_dir_org := fs.cwd
  let work_dir := "work/imp_shell" ++ toString ish ++ "_bse"
  let fs1 : FileSys :=
    ⟨fs.cwd, if work_dir ∈ fs.dirs then fs.dirs else work_dir :: fs.dirs⟩
  let fs2 : FileSys := ⟨fs1.cwd ++ "/" ++ work_dir, fs1.dirs⟩
  match solve with
  | Except.error e => (Except.error e, fs2)
  | Except.ok x => (Except.ok x, ⟨work_dir_org, fs2.dirs⟩)

/-- C7 counterexample: when the solver raises, the working directory is
not restored: starting from cwd "/run", after a failing solve for shell
0 the process is left in "/run/work/imp_shell0_bse", not "/run". -/
theorem calc_g2_cwd_error_cex :
    ((calc_g2_in_impurity_model 0
        (Except.error SolverErr.solverFailure : Except SolverErr ℕ)
        ⟨"/run", []⟩).2).cwd ≠ "/run" := by
  decide

/-- C7 amended: the saved working directory is restored on the
normal-return path of every per-shell solve; on the error path the
exception propagates and the process is left inside the shell work
directory `work/imp_shell<ish>_bse`, not restored. -/
theorem calc_g2_cwd_restoration {α : Type} (ish : ℕ) (x : α)
    (e : SolverErr) (fs : FileSys) :
    ((calc_g2_in_impurity_model ish (Except.ok x) fs).2).cwd = fs.cwd ∧
    ((calc_g2_in_impurity_model ish (Except.error e : Except SolverErr α)
        fs).2).cwd =
      fs.cwd ++ "/" ++ ("work/imp_shell" ++ toString ish ++ "_bse") :=
  ⟨rfl, rfl⟩

/-- ASCII whitespace recognised by Python's `str.split()` with no
separator argument. -/
def isSpaceChar (c : Char) : Bool :=
  c == ' ' || c == '\t' || c == '\n' || c == '\r'

/-- Accumulator pass of `str.split()`: split on runs of whitespace,
discarding empty fields. -/
def splitWsAux : List Char → List Char → List (List Char)
  | [], cur => if cur.isEmpty then [] else [cur.reverse]
  | c :: rest, cur =>
    if isSpaceChar c then
      if cur.isEmpty then splitWsAux rest []
      else cur.reverse :: splitWsAux rest []
    else splitWsAux rest (c :: cur)

/-- Python `line.split()`. -/
def pySplitWs (s : List Char) : List (List Char) := splitWsAux s []

/-- Accumulator pass of `str.split('.')`: split at every dot, keeping
empty pieces. -/
def splitDotAux : List Char → List Char → List (List Char)
  | [], cur => [cur.reverse]
  | c :: rest, cur =>
    if c == '.' then cur.reverse :: splitDotAux rest []
    else splitDotAux rest (c :: cur)

/-- Python `q_str.split('.')`. -/
def pySplitDot (s : List Char) : List (List Char) := splitDotAux s []

/-- Value of a decimal digit character, if any. -/
def digitVal (c : Char) : Option ℕ :=
  if '0' ≤ c ∧ c ≤ '9' then some (c.toNat - Char.toNat '0') else none

/-- Fold a digit string into a natural number, failing on any non-digit. -/
def digitsToNatAux : List Char → ℕ → Option ℕ
  | [], acc => some acc
  | c :: rest, acc =>
    match digitVal c with
    | some d => digitsToNatAux rest (10 * acc + d)
    | none => none

/-- Python `int(s)` restricted to optionally signed decimal literals
(the only shapes occurring in q-point files); anything else raises,
modelled as `none`. -/
def str_to_int : List Char → Option ℤ
  | [] => none
  | '-' :: rest =>
      if rest.isEmpty then none
      else (digitsToNatAux rest 0).map (fun n => -(n : ℤ))
  | '+' :: rest =>
      if rest.isEmpty then none
      else (digitsToNatAux rest 0).map (fun n => (n : ℤ))
  | s => (digitsToNatAux s 0).map (fun n => (n : ℤ))

/-- One loop iteration of `_calc_bse_x0q`'s q-point reader:
`q_str = line.split()[1]` (IndexError when the line has fewer than two
fields) then `tuple(map(int, q_str.split('.')))`. -/
def parse_qpoint_line (line : List Char) : Option (List ℤ) :=
  match (pySplitWs line)[1]? with
  | none => none
  | some q_str => (pySplitDot q_str).mapM str_to_int

/-- The whole q-point reading loop: `q_points = []` followed by one
append per line, any exception aborting the read. -/
def parse_qpoints (lines : List (List Char)) : Option (List (List ℤ)) :=
  lines.foldl
    (fun acc line =>
      match acc, parse_qpoint_line line with
      | some qs, some q => some (qs ++ [q])
      | _, _ => none)
    (some [])

/-- The claim-level description of one line's q-point: the second
whitespace-separated field exists, and splitting it on '.' and
converting the parts to integers yields `q`. -/
def qpointOfLine (line : List Char) (q : List ℤ) : Prop :=
  ∃ field2 : List Char,
    (pySplitWs line)[1]? = some field2 ∧
    (pySplitDot field2).mapM str_to_int = some q

theorem parse_qpoints_foldl_none (lines : List (List Char)) :
    lines.foldl
      (fun acc line =>
        match acc, parse_qpoint_line line with
        | some qs, some q => some (qs ++ [q])
        | _, _ => none)
      none = none := by
  induction lines with
  | nil => rfl
  | cons line rest ih =>
      rw [List.foldl_cons]
      have hstep :
          (match (none : Option (List (List ℤ))), parse_qpoint_line line with
            | some qs, some q => some (qs ++ [q])
            | _, _ => none) = none := by
        cases parse_qpoint_line line <;> rfl
      rw [hstep, ih]

theorem parse_qpoints_go (lines : List (List Char)) (acc r : List (List ℤ))
    (h : lines.foldl
        (fun acc line =>
          match acc, parse_qpoint_line line with
          | some qs, some q => some (qs ++ [q])
          | _, _ => none)
        (some acc) = some r) :
    ∃ r2, r = acc ++ r2 ∧ List.Forall₂ qpointOfLine lines r2 := by
  induction lines generalizing acc with
  | nil =>
      cases h
      exact ⟨[], by simp, List.Forall₂.nil⟩
  | cons line rest ih =>
      rw [List.foldl_cons] at h
      cases hq : parse_qpoint_line line with
      | none =>
          rw [hq] at h
          rw [parse_qpoints_foldl_none] at h
          cases h
      | some q =>
          rw [hq] at h
          obtain ⟨r2, hr, hf⟩ := ih (acc ++ [q]) h
          refine ⟨q :: r2, by simp [hr], List.Forall₂.cons ?_ hf⟩
          unfold parse_qpoint_line at hq
          cases hsf : (pySplitWs line)[1]? with
          | none => rw [hsf] at hq; cases hq
          | some field2 =>
              rw [hsf] at hq
              exact ⟨field2, hsf, hq⟩

/-- C8: when `X0q_qpoints_saved` is not 'quadrant', the q-point list is
obtained from the file by taking, for every line, the second
whitespace-separated field, splitting it on '.' and converting the parts
to integers, preserving line order (one q-point per line, positionally). -/
theorem parse_qpoints_correct (lines : List (List Char))
    (r : List (List ℤ)) (h : parse_qpoints lines = some r) :
    r.length = lines.length ∧ List.Forall₂ qpointOfLine lines r := by
  obtain ⟨r2, hr, hf⟩ := parse_qpoints_go lines [] r h
  rw [hr]
  simp only [List.nil_append]
  exact ⟨(List.Forall₂.length_eq hf).symm, hf⟩

/-- A concrete two-line q-point file: "G 0.0.1" and "X 1.2.12". -/
def qlinesW : List (List Char) :=
  [['G', ' ', '0', '.', '0', '.', '1'],
    ['X', ' ', '1', '.', '2', '.', '1', '2']]

/-- Witness for C8 on the concrete two-line file. -/
theorem parse_qpoints_correct_witness :
    ([[0, 0, 1], [1, 2, 12]] : List (List ℤ)).length = qlinesW.length ∧
      List.Forall₂ qpointOfLine qlinesW [[0, 0, 1], [1, 2, 12]] :=
  parse_qpoints_correct qlinesW [[0, 0, 1], [1, 2, 12]] (by decide)

/-- The orbital-space sub-block
`gamma0_orb = -u_mat_ph1[s1,:,s2,:,s3,:,s4,:] + u_mat_ph2[...]` after
reshaping each flavor axis into a (spin, orbital) pair, with flavor
`s * n_orb + o` (spin-major, matching `decompose_index`). -/
def gamma0_orbBlock (u : T4) (n_orb s1 s2 s3 s4 : ℕ)
    (o1 o2 o3 o4 : ℕ) : ℤ :=
  - u_mat_ph1 u (s1 * n_orb + o1) (s2 * n_orb + o2)
      (s3 * n_orb + o3) (s4 * n_orb + o4) +
    u_mat_ph2 u (s1 * n_orb + o1) (s2 * n_orb + o2)
      (s3 * n_orb + o3) (s4 * n_orb + o4)

/-- The skip test `numpy.linalg.norm(gamma0_orb) == 0`, which over exact
arithmetic holds iff every entry of the block vanishes. -/
def allZeroBlock (b : ℕ → ℕ → ℕ → ℕ → ℤ) (n : ℕ) : Bool :=
  (List.range n).all fun o1 =>
    (List.range n).all fun o2 =>
      (List.range n).all fun o3 =>
        (List.range n).all fun o4 => b o1 o2 o3 o4 == 0

/-- `product(range(2), repeat=4)`: the sixteen spin combinations in loop
order. -/
def spinCombos : List (ℕ × ℕ × ℕ × ℕ) :=
  (List.range 2).flatMap fun s1 =>
    (List.range 2).flatMap fun s2 =>
      (List.range 2).flatMap fun s3 =>
        (List.range 2).map fun s4 => (s1, s2, s3, s4)

/-- The matrix stored for one spin combination:
`gamma0_orb.reshape((n_orb**2,)*2)` in C order. -/
def gamma0_mat (u : T4) (n_orb s1 s2 s3 s4 : ℕ) : ℕ → ℕ → ℤ :=
  fun r c =>
    gamma0_orbBlock u n_orb s1 s2 s3 s4
      (r / n_orb) (r % n_orb) (c / n_orb) (c % n_orb)

/-- `SaveBSE.save_gamma0`, non-spin-orbit branch: loop over all spin
combinations, skip exactly-zero orbital sub-blocks, and key the rest by
the block-index pair.  The IndexPair2 lookup of the external dft_tools
collaborator is the abstract parameter `bidx` (shell argument already
fixed to `icrsh`). -/
def save_gamma0_nso (u : T4) (n_orb : ℕ) (bidx : ℕ → ℕ → ℕ) :
    List ((ℕ × ℕ) × (ℕ → ℕ → ℤ)) :=
  spinCombos.foldl
    (fun acc s =>
      if allZeroBlock (gamma0_orbBlock u n_orb s.1 s.2.1 s.2.2.1 s.2.2.2)
          n_orb then acc
      else
        acc ++ [((bidx s.1 s.2.1, bidx s.2.2.1 s.2.2.2),
          gamma0_mat u n_orb s.1 s.2.1 s.2.2.1 s.2.2.2)])
    []

/-- `SaveBSE.save_gamma0`, spin-orbit branch: the full
`gamma0_inner = -u_mat_ph1 + u_mat_ph2` tensor is reshaped to one square
matrix and stored unconditionally under the diagonal block-index pair:
there is no zero-skip on this path. -/
def save_gamma0_so (u : T4) (n_flavors : ℕ) (bidx0 : ℕ) :
    List ((ℕ × ℕ) × (ℕ → ℕ → ℤ)) :=
  [((bidx0, bidx0),
    fun r c => gamma0_tensor u (r / n_flavors) (r % n_flavors)
      (c / n_flavors) (c % n_flavors))]

theorem foldl_if_append {α β : Type} (p : α → Bool) (ent : α → β)
    (l : List α) (acc : List β) :
    l.foldl (fun acc s => if p s then acc else acc ++ [ent s]) acc =
      acc ++ l.filterMap (fun s => if p s then none else some (ent s)) := by
  induction l generalizing acc with
  | nil => simp
  | cons s rest ih =>
      rw [List.foldl_cons, List.filterMap_cons]
      by_cases hp : p s = true
      · rw [if_pos hp, if_pos hp, ih]
      · rw [if_neg hp, if_neg hp, ih, List.append_assoc]
        rfl

theorem mem_spinCombos (s : ℕ × ℕ × ℕ × ℕ) :
    s ∈ spinCombos ↔
      s.1 < 2 ∧ s.2.1 < 2 ∧ s.2.2.1 < 2 ∧ s.2.2.2 < 2 := by
  obtain ⟨s1, s2, s3, s4⟩ := s
  simp only [spinCombos, List.mem_flatMap, List.mem_map, List.mem_range]
  constructor
  · rintro ⟨a, ha, b, hb, c, hc, d, hd, heq⟩
    obtain ⟨rfl, rfl, rfl, rfl⟩ := Prod.mk.injEq .. ▸ heq
    · exact ⟨ha, hb, hc, hd⟩
  · rintro ⟨h1, h2, h3, h4⟩
    exact ⟨s1, h1, s2, h2, s3, h3, s4, h4, rfl⟩

theorem hasKey_iff_exists {α : Type} (l : List ((ℕ × ℕ) × α)) (k : ℕ × ℕ) :
    hasKey l k = true ↔ ∃ e ∈ l, e.1 = k := by
  simp [hasKey, List.any_eq_true]

/-- C5 counterexample: with spin-orbit coupling and the zero interaction
tensor, the assembled block is exactly zero, yet the stored mapping
contains its key (bound to a zero matrix): the spin-orbit branch omits
no zero block. -/
theorem save_gamma0_so_zero_stored :
    allZeroBlock (gamma0_tensor (fun _ _ _ _ => 0)) 1 = true ∧
    hasKey (save_gamma0_so (fun _ _ _ _ => 0) 1 0) (0, 0) = true ∧
    (dictLookup (save_gamma0_so (fun _ _ _ _ => 0) 1 0) (0, 0)).isSome =
      true := by
  refine ⟨by decide, rfl, rfl⟩

/-- C5 amended: a block-name pair injective on spin pairs given, in the
non-spin-orbit scheme the stored bare-vertex mapping contains the key of
a spin combination iff its orbital-space sub-block is not exactly zero
(zero blocks omitted, nonzero blocks present); in the spin-orbit scheme
the single diagonal block is stored unconditionally, even when it is
exactly zero. -/
theorem save_gamma0_zero_block_policy (u : T4) (n_orb : ℕ)
    (bidx : ℕ → ℕ → ℕ)
    (hinj : ∀ a b a2 b2 : ℕ, a < 2 → b < 2 → a2 < 2 → b2 < 2 →
      bidx a b = bidx a2 b2 → a = a2 ∧ b = b2) :
    (∀ s ∈ spinCombos,
      hasKey (save_gamma0_nso u n_orb bidx)
          (bidx s.1 s.2.1, bidx s.2.2.1 s.2.2.2) = true ↔
        allZeroBlock (gamma0_orbBlock u n_orb s.1 s.2.1 s.2.2.1 s.2.2.2)
            n_orb = false) ∧
    (∀ nf b0 : ℕ,
      dictLookup (save_gamma0_so u nf b0) (b0, b0) =
        some (fun r c => gamma0_tensor u (r / nf) (r % nf)
          (c / nf) (c % nf))) := by
  constructor
  · intro s hs
    have hflt : save_gamma0_nso u n_orb bidx =
        spinCombos.filterMap (fun t =>
          if allZeroBlock (gamma0_orbBlock u n_orb t.1 t.2.1 t.2.2.1 t.2.2.2)
              n_orb then none
          else
            some ((bidx t.1 t.2.1, bidx t.2.2.1 t.2.2.2),
              gamma0_mat u n_orb t.1 t.2.1 t.2.2.1 t.2.2.2)) := by
      unfold save_gamma0_nso
      rw [foldl_if_append]
      rfl
    rw [hflt, hasKey_iff_exists]
    constructor
    · rintro ⟨e, hmem, hek⟩
      rw [List.mem_filterMap] at hmem
      obtain ⟨t, htmem, hft⟩ := hmem
      by_cases hz : allZeroBlock
          (gamma0_orbBlock u n_orb t.1 t.2.1 t.2.2.1 t.2.2.2) n_orb
      · rw [if_pos hz] at hft
        cases hft
      · rw [if_neg hz] at hft
        cases hft
        have hsb := (mem_spinCombos s).mp hs
        have htb := (mem_spinCombos t).mp htmem
        have hkey := hek
        simp only [Prod.mk.injEq] at hkey
        have h12 := hinj t.1 t.2.1 s.1 s.2.1 htb.1 htb.2.1 hsb.1 hsb.2.1
          hkey.1
        have h34 := hinj t.2.2.1 t.2.2.2 s.2.2.1 s.2.2.2 htb.2.2.1
          htb.2.2.2 hsb.2.2.1 hsb.2.2.2 hkey.2
        have hts : t = s := by
          obtain ⟨t1, t2, t3, t4⟩ := t
          obtain ⟨s1, s2, s3, s4⟩ := s
          simp only at h12 h34
          simp [h12.1, h12.2, h34.1, h34.2]
        rw [hts] at hz
        exact Bool.not_eq_true _ ▸ (by simpa using hz)
    · intro hz
      refine ⟨((bidx s.1 s.2.1, bidx s.2.2.1 s.2.2.2),
        gamma0_mat u n_orb s.1 s.2.1 s.2.2.1 s.2.2.2), ?_, rfl⟩
      rw [List.mem_filterMap]
      exact ⟨s, hs, by rw [if_neg (by simp [hz])]⟩
  · intro nf b0
    simp [save_gamma0_so, dictLookup]

/-- A concrete block-index enumeration on spin pairs, injective. -/
def bidxW (a b : ℕ) : ℕ := 2 * a + b

/-- A concrete interaction tensor whose bare-vertex spin block (0,1,0,0)
is nonzero (one orbital, two flavors). -/
def uGW : T4 := fun a b c d => (a : ℤ) + 2 * b + 4 * c + 8 * d

/-- Witness for C5: on the concrete tensor the nonzero spin block
(0,1,0,0) has its key present in the stored mapping. -/
theorem save_gamma0_zero_block_policy_witness :
    hasKey (save_gamma0_nso uGW 1 bidxW) (bidxW 0 1, bidxW 0 0) = true :=
  ((save_gamma0_zero_block_policy uGW 1 bidxW
      (by
        intro a b a2 b2 ha hb ha2 hb2 h
        unfold bidxW at h
        omega)).1
    (0, 1, 0, 0) (by decide)).mpr (by decide)

/-- Projection of one `X_loc` 4-tuple to its storage coordinates in
`SaveBSE.save_xloc`: without spin-orbit, `decompose_index` splits each
flavor spin-major as `(i / n_orb, i % n_orb)`; with spin-orbit the spin
is 0 and the inner index is the flavor itself.  The block pair comes
from `block2.get_index` (abstract `bidx`, shell fixed), the inner pair
from `inner2.get_index` (abstract `iidx`). -/
def xloc_proj (useSO : Bool) (n_orb : ℕ) (bidx iidx : ℕ → ℕ → ℕ)
    (e : XEntry) : (ℕ × ℕ) × (ℕ × ℕ) :=
  let dec := fun i : ℕ => if useSO then (0, i) else (i / n_orb, i % n_orb)
  ((bidx (dec e.i1).1 (dec e.i2).1, bidx (dec e.i3).1 (dec e.i4).1),
    (iidx (dec e.i1).2 (dec e.i2).2, iidx (dec e.i3).2 (dec e.i4).2))

/-- One bosonic-frequency slice of `SaveBSE.save_xloc`: loop over the
stored 4-tuples in order; for each, ensure a zero-initialised block
exists for its block-pair key, then assign (not accumulate) the
`(wf1, wf2)` slab at its inner-pair coordinates.  The in-place dict
update is modelled by appending a shadowing binding, `dictLookup`
preferring the latest. -/
def save_xloc_slice (useSO : Bool) (n_orb : ℕ) (bidx iidx : ℕ → ℕ → ℕ)
    (items : List XEntry) (wb : ℕ) :
    List ((ℕ × ℕ) × (ℕ → ℕ → ℕ → ℕ → ℤ)) :=
  items.foldl
    (fun acc e =>
      let pr := xloc_proj useSO n_orb bidx iidx e
      let cur := (dictLookup acc pr.1).getD (fun _ _ _ _ => 0)
      acc ++ [(pr.1,
        fun a b f1 f2 =>
          if a = pr.2.1 ∧ b = pr.2.2 then e.data wb f1 f2
          else cur a b f1 f2)])
    []

/-- `SaveBSE.save_xloc`: one stored record per bosonic index. -/
def save_xloc (useSO : Bool) (n_orb : ℕ) (bidx iidx : ℕ → ℕ → ℕ)
    (items : List XEntry) (n_w2b : ℕ) :
    List (ℕ × List ((ℕ × ℕ) × (ℕ → ℕ → ℕ → ℕ → ℤ))) :=
  (List.range n_w2b).map
    (fun wb => (wb, save_xloc_slice useSO n_orb bidx iidx items wb))

theorem save_xloc_slice_append (useSO : Bool) (n_orb : ℕ)
    (bidx iidx : ℕ → ℕ → ℕ) (l : List XEntry) (e : XEntry) (wb : ℕ) :
    save_xloc_slice useSO n_orb bidx iidx (l ++ [e]) wb =
      save_xloc_slice useSO n_orb bidx iidx l wb ++
        [((xloc_proj useSO n_orb bidx iidx e).1,
          fun a b f1 f2 =>
            if a = (xloc_proj useSO n_orb bidx iidx e).2.1 ∧
                b = (xloc_proj useSO n_orb bidx iidx e).2.2 then
              e.data wb f1 f2
            else
              ((dictLookup (save_xloc_slice useSO n_orb bidx iidx l wb)
                  (xloc_proj useSO n_orb bidx iidx e).1).getD
                (fun _ _ _ _ => 0)) a b f1 f2)] := by
  unfold save_xloc_slice
  rw [List.foldl_append]
  rfl

theorem save_xloc_slice_lookup_none (useSO : Bool) (n_orb : ℕ)
    (bidx iidx : ℕ → ℕ → ℕ) (l : List XEntry) (wb : ℕ) (K : ℕ × ℕ)
    (h : ∀ e ∈ l, (xloc_proj useSO n_orb bidx iidx e).1 ≠ K) :
    dictLookup (save_xloc_slice useSO n_orb bidx iidx l wb) K = none := by
  induction l using List.reverseRecOn with
  | nil => rfl
  | append_singleton l e ih =>
      rw [save_xloc_slice_append, dictLookup_append_single,
        if_neg (h e (by simp))]
      exact ih (fun e2 he2 => h e2 (List.mem_append_left _ he2))

theorem save_xloc_slice_last_write (useSO : Bool) (n_orb : ℕ)
    (bidx iidx : ℕ → ℕ → ℕ) (l : List XEntry) (wb : ℕ) (K : ℕ × ℕ)
    (I J f1 f2 : ℕ) (e0 : XEntry)
    (hlast : (l.filter (fun e =>
        xloc_proj useSO n_orb bidx iidx e = (K, (I, J)))).getLast? =
      some e0) :
    ∃ M, dictLookup (save_xloc_slice useSO n_orb bidx iidx l wb) K =
        some M ∧
      M I J f1 f2 = e0.data wb f1 f2 := by
  induction l using List.reverseRecOn with
  | nil => cases hlast
  | append_singleton l e ih =>
      rw [List.filter_append] at hlast
      by_cases hp : xloc_proj useSO n_orb bidx iidx e = (K, (I, J))
      · have hfe : List.filter (fun e =>
            decide (xloc_proj useSO n_orb bidx iidx e = (K, (I, J)))) [e] =
              [e] := by
          simp [hp]
        rw [hfe, List.getLast?_concat] at hlast
        have heq : e = e0 := Option.some.inj hlast
        subst heq
        have hK : (xloc_proj useSO n_orb bidx iidx e).1 = K := by
          rw [hp]
        have hIJ : (xloc_proj useSO n_orb bidx iidx e).2 = (I, J) := by
          rw [hp]
        rw [save_xloc_slice_append, dictLookup_append_single, if_pos hK]
        refine ⟨_, rfl, ?_⟩
        rw [if_pos ⟨by rw [hIJ], by rw [hIJ]⟩]
      · have hfe : List.filter (fun e =>
            decide (xloc_proj useSO n_orb bidx iidx e = (K, (I, J)))) [e] =
              [] := by
          simp [hp]
        rw [hfe, List.append_nil] at hlast
        obtain ⟨M, hM, hMv⟩ := ih hlast
        by_cases hb : (xloc_proj useSO n_orb bidx iidx e).1 = K
        · rw [save_xloc_slice_append, dictLookup_append_single, if_pos hb]
          refine ⟨_, rfl, ?_⟩
          have hcond : ¬(I = (xloc_proj useSO n_orb bidx iidx e).2.1 ∧
              J = (xloc_proj useSO n_orb bidx iidx e).2.2) := by
            rintro ⟨hI, hJ⟩
            apply hp
            have : (xloc_proj useSO n_orb bidx iidx e).2 = (I, J) := by
              rw [hI, hJ]
            calc xloc_proj useSO n_orb bidx iidx e
                = ((xloc_proj useSO n_orb bidx iidx e).1,
                    (xloc_proj useSO n_orb bidx iidx e).2) := rfl
              _ = (K, (I, J)) := by rw [hb, this]
          rw [if_neg hcond, hb, hM]
          simp only [Option.getD_some]
          exact hMv
        · rw [save_xloc_slice_append, dictLookup_append_single, if_neg hb]
          exact ⟨M, hM, hMv⟩

theorem save_xloc_slice_unhit_zero (useSO : Bool) (n_orb : ℕ)
    (bidx iidx : ℕ → ℕ → ℕ) (l : List XEntry) (wb : ℕ) (K : ℕ × ℕ)
    (I J f1 f2 : ℕ)
    (hblock : ∃ e ∈ l, (xloc_proj useSO n_orb bidx iidx e).1 = K)
    (hmiss : ∀ e ∈ l, xloc_proj useSO n_orb bidx iidx e ≠ (K, (I, J))) :
    ∃ M, dictLookup (save_xloc_slice useSO n_orb bidx iidx l wb) K =
        some M ∧
      M I J f1 f2 = 0 := by
  induction l using List.reverseRecOn with
  | nil =>
      obtain ⟨e, he, _⟩ := hblock
      cases he
  | append_singleton l e ih =>
      by_cases hb : (xloc_proj useSO n_orb bidx iidx e).1 = K
      · rw [save_xloc_slice_append, dictLookup_append_single, if_pos hb]
        refine ⟨_, rfl, ?_⟩
        have hcond : ¬(I = (xloc_proj useSO n_orb bidx iidx e).2.1 ∧
            J = (xloc_proj useSO n_orb bidx iidx e).2.2) := by
          rintro ⟨hI, hJ⟩
          apply hmiss e (by simp)
          calc xloc_proj useSO n_orb bidx iidx e
              = ((xloc_proj useSO n_orb bidx iidx e).1,
                  (xloc_proj useSO n_orb bidx iidx e).2) := rfl
            _ = (K, (I, J)) := by rw [hb, hI, hJ]
        rw [if_neg hcond, hb]
        cases hdl : dictLookup (save_xloc_slice useSO n_orb bidx iidx l wb)
            K with
        | none => rfl
        | some M =>
            have hbl : ∃ e2 ∈ l, (xloc_proj useSO n_orb bidx iidx e2).1 = K := by
              by_contra hno
              push_neg at hno
              rw [save_xloc_slice_lookup_none useSO n_orb bidx iidx l wb K
                hno] at hdl
              cases hdl
            obtain ⟨M2, hM2, h0⟩ := ih hbl
              (fun e2 he2 => hmiss e2 (List.mem_append_left _ he2))
            rw [hM2] at hdl
            have hMM : M2 = M := Option.some.inj hdl
            simp only [Option.getD_some]
            rw [← hMM]
            exact h0
      · rw [save_xloc_slice_append, dictLookup_append_single, if_neg hb]
        have hbl : ∃ e2 ∈ l, (xloc_proj useSO n_orb bidx iidx e2).1 = K := by
          obtain ⟨e2, he2, hk2⟩ := hblock
          rcases List.mem_append.mp he2 with h2 | h2
          · exact ⟨e2, h2, hk2⟩
          · rw [List.mem_singleton.mp h2] at hk2
            exact absurd hk2 hb
        exact ih hbl (fun e2 he2 => hmiss e2 (List.mem_append_left _ he2))

/-- C10: within each bosonic-frequency slice written by `save_xloc`,
entries are stored by assignment, not accumulation: the value persisted
at a (block-pair, inner-pair) coordinate is the slab of the stored
4-tuple iterated last among those projecting there, and every coordinate
of an allocated block not hit by any stored 4-tuple remains exactly zero
from the zero-initialised allocation. -/
theorem save_xloc_assignment (useSO : Bool) (n_orb : ℕ)
    (bidx iidx : ℕ → ℕ → ℕ) (items : List XEntry) (wb : ℕ)
    (K : ℕ × ℕ) (I J f1 f2 : ℕ) :
    (∀ e0 : XEntry,
      (items.filter (fun e =>
          xloc_proj useSO n_orb bidx iidx e = (K, (I, J)))).getLast? =
        some e0 →
      ∃ M, dictLookup (save_xloc_slice useSO n_orb bidx iidx items wb) K =
          some M ∧
        M I J f1 f2 = e0.data wb f1 f2) ∧
    ((∃ e ∈ items, (xloc_proj useSO n_orb bidx iidx e).1 = K) →
      (∀ e ∈ items, xloc_proj useSO n_orb bidx iidx e ≠ (K, (I, J))) →
      ∃ M, dictLookup (save_xloc_slice useSO n_orb bidx iidx items wb) K =
          some M ∧
        M I J f1 f2 = 0) :=
  ⟨fun e0 h =>
      save_xloc_slice_last_write useSO n_orb bidx iidx items wb K I J f1 f2
        e0 h,
    fun hb hm =>
      save_xloc_slice_unhit_zero useSO n_orb bidx iidx items wb K I J f1 f2
        hb hm⟩

/-- A concrete `X_loc` entry (constant 5) for the collision witness. -/
def eXA : XEntry := ⟨0, 0, 0, 0, 1, 1, fun _ _ _ => 5⟩

/-- A second concrete entry (constant 7) projecting to the same
storage coordinates as `eXA`. -/
def eXB : XEntry := ⟨0, 0, 0, 0, 1, 1, fun _ _ _ => 7⟩

/-- Witness for C10: with two colliding tuples the persisted value is the
one iterated last (7, from `eXB`), and an unhit coordinate is zero. -/
theorem save_xloc_assignment_witness :
    (∃ M, dictLookup (save_xloc_slice true 1 bidxW bidxW [eXA, eXB] 0)
        (0, 0) = some M ∧
      M 0 0 0 0 = eXB.data 0 0 0) ∧
    (∃ M, dictLookup (save_xloc_slice true 1 bidxW bidxW [eXA, eXB] 0)
        (0, 0) = some M ∧
      M 1 0 0 0 = 0) :=
  ⟨(save_xloc_assignment true 1 bidxW bidxW [eXA, eXB] 0 (0, 0)
      0 0 0 0).1 eXB rfl,
    (save_xloc_assignment true 1 bidxW bidxW [eXA, eXB] 0 (0, 0)
      1 0 0 0).2
      ⟨eXA, List.mem_cons_self _ _, rfl⟩
      (by
        intro e he
        rcases List.mem_cons.mp he with rfl | he2
        · decide
        · rcases List.mem_cons.mp he2 with rfl | he3
          · decide
          · cases he3)⟩

end DCoreBSE
